import Mathlib

/- Verification of the indirection layer of awkward-array
   (src/awkward/array/indexed.py and src/awkward/array/virtual.py),
   shallowly embedded over Lean lists.  Index arrays are `List Int`
   (numpy int64 index arrays; negative indices wrap numpy-style),
   content arrays are `List Int` (scalar elements), byte buffers are
   `List Nat` (one natural per byte).  Fallible numpy operations are
   embedded in `Except PyErr`. -/

namespace Awkward

/-- Python exception classes that the embedded code can raise. -/
inductive PyErr where
  | nameError (nm : String)
  | valueError (msg : String)
  | indexError (msg : String)
  | typeError (msg : String)
  deriving DecidableEq, Repr

/-- Numpy index normalisation: a negative index counts from the end. -/
def npIdx (len : Nat) (i : Int) : Int :=
  if i < 0 then i + len else i

/-- Numpy scalar read `l[i]` with wrap-around for negative `i` and an
IndexError outside the valid range. -/
def npGetE {α : Type} (l : List α) (i : Int) : Except PyErr α :=
  let j := npIdx l.length i
  if 0 ≤ j then
    match l[j.toNat]? with
    | some v => .ok v
    | none => .error (.indexError "index out of range")
  else .error (.indexError "index out of range")

/-- Numpy scalar write `l[i] = v` with wrap-around for negative `i`. -/
def npSetE {α : Type} (l : List α) (i : Int) (v : α) : Except PyErr (List α) :=
  let j := npIdx l.length i
  if 0 ≤ j ∧ j < l.length then .ok (l.set j.toNat v)
  else .error (.indexError "index out of range")

/-- Left-to-right effectful map, the order in which a Python generator
expression or a fancy-index gather evaluates its elements. -/
def emap {α β : Type} (f : α → Except PyErr β) : List α → Except PyErr (List β)
  | [] => .ok []
  | x :: xs =>
    match f x with
    | .error e => .error e
    | .ok y =>
      match emap f xs with
      | .error e => .error e
      | .ok ys => .ok (y :: ys)

/-- Numpy fancy-index assignment `l[idxs] = vals`, applied left to right
(later duplicates win, as in numpy). -/
def npSetFancy {α : Type} (l : List α) : List Int → List α → Except PyErr (List α)
  | [], [] => .ok l
  | i :: is, v :: vs =>
    match npSetE l i v with
    | .error e => .error e
    | .ok l2 => npSetFancy l2 is vs
  | _, _ => .error (.valueError "shape mismatch")

/-- Numpy broadcast assignment `l[idxs] = v` of one scalar to many positions. -/
def npSetFancyScalar {α : Type} (l : List α) (idxs : List Int) (v : α) : Except PyErr (List α) :=
  npSetFancy l idxs (List.replicate idxs.length v)

/-- Boolean-mask selection `l[m]` (lengths assumed equal by the caller). -/
def boolMask {α : Type} : List α → List Bool → List α
  | x :: xs, b :: bs => (if b then [x] else []) ++ boolMask xs bs
  | _, _ => []

/- Basic lemmas about the numpy helpers. -/

theorem npGetE_ok {α : Type} (l : List α) (i : Int) (v : α)
    (h0 : 0 ≤ i) (hv : l[i.toNat]? = some v) :
    npGetE l i = .ok v := by
  unfold npGetE npIdx
  have hni : ¬ i < 0 := not_lt.mpr h0
  simp only [hni, if_false]
  simp [h0, hv]

theorem npGetE_ok_getD {α : Type} (l : List α) (i : Int) (d : α)
    (h0 : 0 ≤ i) (h1 : i < l.length) :
    npGetE l i = .ok (l.getD i.toNat d) := by
  have hn : i.toNat < l.length := by omega
  apply npGetE_ok l i _ h0
  rw [List.getD_eq_getElem?_getD]
  rcases h : l[i.toNat]? with _ | v
  · rw [List.getElem?_eq_none_iff] at h; omega
  · rfl

theorem npSetE_ok {α : Type} (l : List α) (i : Int) (v : α)
    (h0 : 0 ≤ i) (h1 : i < l.length) :
    npSetE l i v = .ok (l.set i.toNat v) := by
  unfold npSetE npIdx
  have hni : ¬ i < 0 := not_lt.mpr h0
  simp only [hni, if_false]
  simp [h0, h1]

theorem emap_ok_of_forall {α β : Type} (f : α → Except PyErr β) (g : α → β) :
    ∀ (l : List α), (∀ x ∈ l, f x = .ok (g x)) → emap f l = .ok (l.map g)
  | [], _ => rfl
  | x :: xs, h => by
    have hx : f x = .ok (g x) := h x (by simp)
    have hxs : emap f xs = .ok (xs.map g) :=
      emap_ok_of_forall f g xs (fun y hy => h y (by simp [hy]))
    simp [emap, hx, hxs]

theorem emap_length {α β : Type} (f : α → Except PyErr β) :
    ∀ (l : List α) (ys : List β), emap f l = .ok ys → ys.length = l.length
  | [], ys, h => by
    simp only [emap, Except.ok.injEq] at h
    subst h
    rfl
  | x :: xs, ys, h => by
    simp only [emap] at h
    rcases hx : f x with e | y
    · rw [hx] at h; exact absurd h (by simp)
    · rw [hx] at h
      rcases hxs : emap f xs with e | ys2
      · rw [hxs] at h; exact absurd h (by simp)
      · rw [hxs] at h
        simp only [Except.ok.injEq] at h
        have := emap_length f xs ys2 hxs
        simp [← h, this]

theorem emap_get {α β : Type} (f : α → Except PyErr β) :
    ∀ (l : List α) (ys : List β), emap f l = .ok ys →
      ∀ (k : Nat) (y : β), ys[k]? = some y → ∃ x, l[k]? = some x ∧ f x = .ok y
  | [], ys, h => by
    simp only [emap, Except.ok.injEq] at h
    subst h
    intro k y hy
    rw [List.getElem?_nil] at hy
    exact Option.noConfusion hy
  | x :: xs, ys, h => by
    simp only [emap] at h
    rcases hx : f x with e | y0
    · rw [hx] at h; exact absurd h (by simp)
    · rw [hx] at h
      rcases hxs : emap f xs with e | ys2
      · rw [hxs] at h; exact absurd h (by simp)
      · rw [hxs] at h
        simp only [Except.ok.injEq] at h
        intro k y hy
        cases k with
        | zero =>
          refine ⟨x, by simp, ?_⟩
          rw [← h] at hy
          simp at hy
          rw [hx, hy]
        | succ k =>
          rw [← h] at hy
          simp at hy
          obtain ⟨x2, hx2, hfx2⟩ := emap_get f xs ys2 hxs k y hy
          exact ⟨x2, by simpa using hx2, hfx2⟩

/- ===================== IndexedArray ===================== -/

/-- Embedding of `IndexedArray` (indexed.py lines 38-101): a 1-D integer
index array over a content array, plus a writeable flag. -/
structure IndexedArray where
  index : List Int
  content : List Int
  writeable : Bool
  deriving DecidableEq, Repr

/-- `IndexedArray.__getitem__` on a positional scalar `where`:
`self._content[self._index[where]]`.  (The string branch, which projects
a column of the content, is not exercised by any claim about this class.) -/
def IndexedArray.getScalar (a : IndexedArray) (p : Int) : Except PyErr Int :=
  match npGetE a.index p with
  | .error e => .error e
  | .ok i => npGetE a.content i

/-- `IndexedArray.__setitem__` on a positional scalar `where`: the
read-only check, then `self._content[self._index[where]] = what`. -/
def IndexedArray.setScalar (a : IndexedArray) (p : Int) (v : Int) :
    Except PyErr IndexedArray :=
  if a.writeable = false then .error (.valueError "assignment destination is read-only")
  else
    match npGetE a.index p with
    | .error e => .error e
    | .ok i =>
      match npSetE a.content i v with
      | .error e => .error e
      | .ok c => .ok { a with content := c }

/-- C5: for every IndexedArray with a valid 1-D integral index and content
and every in-range position `p`, reading `p` returns `Content[Index[p]]`;
in particular, for Index=[2,0,1] and Content=[10,20,30], Read(0)=30,
Read(1)=10 and Read(2)=20. -/
theorem indexedArray_read_spec (a : IndexedArray) (p : Int)
    (hp0 : 0 ≤ p) (hp1 : p < a.index.length)
    (hi0 : 0 ≤ a.index.getD p.toNat 0)
    (hi1 : a.index.getD p.toNat 0 < a.content.length) :
    a.getScalar p = .ok (a.content.getD (a.index.getD p.toNat 0).toNat 0) ∧
    (IndexedArray.mk [2, 0, 1] [10, 20, 30] true).getScalar 0 = .ok 30 ∧
    (IndexedArray.mk [2, 0, 1] [10, 20, 30] true).getScalar 1 = .ok 10 ∧
    (IndexedArray.mk [2, 0, 1] [10, 20, 30] true).getScalar 2 = .ok 20 := by
  refine ⟨?_, by rfl, by rfl, by rfl⟩
  unfold IndexedArray.getScalar
  rw [npGetE_ok_getD a.index p 0 hp0 hp1]
  exact npGetE_ok_getD a.content _ 0 hi0 hi1

/-- Closed witness for `indexedArray_read_spec` at the concrete instance
Index=[2,0,1], Content=[10,20,30], p=0. -/
theorem indexedArray_read_spec_witness :
    (IndexedArray.mk [2, 0, 1] [10, 20, 30] true).getScalar 0 = .ok 30 :=
  (indexedArray_read_spec (IndexedArray.mk [2, 0, 1] [10, 20, 30] true) 0
    (by decide) (by decide) (by decide) (by decide)).1

theorem list_getElem?_set_self {α : Type} (l : List α) (n : Nat) (v : α)
    (h : n < l.length) : (l.set n v)[n]? = some v := by
  rw [List.getElem?_set_self']
  rcases hg : l[n]? with _ | w
  · rw [List.getElem?_eq_none_iff] at hg; omega
  · simp

/-- C9: for every writeable IndexedArray with a valid index and content,
every in-range position `p` and every scalar `v`, `Write(p, v)` followed
by `Read(p)` returns `v`. -/
theorem indexedArray_write_read_roundtrip (a : IndexedArray) (p : Int) (v : Int)
    (hw : a.writeable = true)
    (hp0 : 0 ≤ p) (hp1 : p < a.index.length)
    (hi0 : 0 ≤ a.index.getD p.toNat 0)
    (hi1 : a.index.getD p.toNat 0 < a.content.length) :
    (a.setScalar p v).bind (fun a2 => a2.getScalar p) = .ok v := by
  have hidx : npGetE a.index p = .ok (a.index.getD p.toNat 0) :=
    npGetE_ok_getD a.index p 0 hp0 hp1
  have hset : a.setScalar p v =
      .ok { a with content := a.content.set (a.index.getD p.toNat 0).toNat v } := by
    unfold IndexedArray.setScalar
    simp only [hw, Bool.true_eq_false, if_false, hidx,
      npSetE_ok a.content (a.index.getD p.toNat 0) v hi0 hi1]
  rw [hset]
  show ({ a with content := a.content.set (a.index.getD p.toNat 0).toNat v } :
      IndexedArray).getScalar p = .ok v
  unfold IndexedArray.getScalar
  have hp1b : p < (({ a with content := a.content.set (a.index.getD p.toNat 0).toNat v } :
      IndexedArray)).index.length := hp1
  rw [npGetE_ok_getD _ p 0 hp0 hp1b]
  apply npGetE_ok _ _ v hi0
  apply list_getElem?_set_self
  omega

/-- Closed witness for `indexedArray_write_read_roundtrip`:
writing 99 at position 1 of Index=[2,0,1], Content=[10,20,30] and
reading it back yields 99. -/
theorem indexedArray_write_read_roundtrip_witness :
    ((IndexedArray.mk [2, 0, 1] [10, 20, 30] true).setScalar 1 99).bind
      (fun a2 => a2.getScalar 1) = .ok 99 :=
  indexedArray_write_read_roundtrip (IndexedArray.mk [2, 0, 1] [10, 20, 30] true) 1 99
    rfl (by decide) (by decide) (by decide) (by decide)

/- ===================== IndexedMaskedArray ===================== -/

/-- Result of reading one position of a nullable view: either the canonical
missing value (`numpy.ma.masked`) or a real content value. -/
inductive MValue where
  | missing
  | val (x : Int)
  deriving DecidableEq, Repr

/-- Embedding of `IndexedMaskedArray` (indexed.py lines 196-281): an
IndexedArray plus the sentinel index value `maskedwhen`. -/
structure IndexedMaskedArray where
  index : List Int
  content : List Int
  maskedwhen : Int
  writeable : Bool
  deriving DecidableEq, Repr

/-- `IndexedMaskedArray.__getitem__` on a positional scalar `where`
(lines 219-223): if `self._index[head] == self._maskedwhen` return
`numpy.ma.masked`, else `self._content[self._index[head]]`. -/
def IndexedMaskedArray.getScalar (a : IndexedMaskedArray) (p : Int) : Except PyErr MValue :=
  match npGetE a.index p with
  | .error e => .error e
  | .ok i =>
    if i = a.maskedwhen then .ok .missing
    else
      match npGetE a.content i with
      | .error e => .error e
      | .ok v => .ok (.val v)

/-- Selector argument of `IndexedMaskedArray.__setitem__`: either a
column-name string or a multi-position (fancy) index. -/
inductive MWhere where
  | str (key : String)
  | many (ps : List Int)
  deriving DecidableEq, Repr

/-- Value argument of `IndexedMaskedArray.__setitem__`; of the write-operand
kinds dispatched on by the source, the ones exercised by the claims are the
bare missing marker `numpy.ma.masked` and a plain numpy array carrying no
missing markers. -/
inductive MWhat where
  | maskedConst
  | plain (xs : List Int)
  deriving DecidableEq, Repr

/-- `IndexedMaskedArray.__setitem__` (lines 227-281).  The string branch
(line 229) evaluates `self._index[head]` where the local name `head` has not
yet been assigned, so it raises an UnboundLocalError (a NameError) before
touching any state.  Otherwise: the read-only check, then dispatch on
`what` — the bare missing marker assigns `self._index[head] = maskedwhen`;
a length-1 array (line 244) assigns `self._content[self._index[head]] =
what[0]` with no mask check; any other plain array (lines 272-275) computes
`only = (index != maskedwhen)` and assigns `self._content[index[only]] =
what[only]`. -/
def IndexedMaskedArray.setitem (a : IndexedMaskedArray) (w : MWhere) (what : MWhat) :
    Except PyErr IndexedMaskedArray :=
  match w with
  | .str _ => .error (.nameError "head")
  | .many head =>
    if a.writeable = false then .error (.valueError "assignment destination is read-only")
    else
      match what with
      | .maskedConst =>
        match npSetFancyScalar a.index head a.maskedwhen with
        | .error e => .error e
        | .ok idx2 => .ok { a with index := idx2 }
      | .plain xs =>
        if xs.length = 1 then
          match emap (npGetE a.index) head with
          | .error e => .error e
          | .ok idxs =>
            match npSetFancyScalar a.content idxs (xs.headD 0) with
            | .error e => .error e
            | .ok c2 => .ok { a with content := c2 }
        else
          match emap (npGetE a.index) head with
          | .error e => .error e
          | .ok idxs =>
            if xs.length ≠ idxs.length then
              .error (.indexError "boolean index did not match indexed array")
            else
              let only := idxs.map (fun i => decide (i ≠ a.maskedwhen))
              match npSetFancy a.content (boolMask idxs only) (boolMask xs only) with
              | .error e => .error e
              | .ok c2 => .ok { a with content := c2 }

/-- Evaluation of `IndexedMaskedArray.getScalar` once the index lookup is
known to succeed. -/
theorem IndexedMaskedArray.getScalar_eq (a : IndexedMaskedArray) (p i : Int)
    (h : npGetE a.index p = .ok i) :
    a.getScalar p = if i = a.maskedwhen then .ok .missing
      else
        match npGetE a.content i with
        | .error e => .error e
        | .ok v => .ok (.val v) := by
  unfold IndexedMaskedArray.getScalar
  rw [h]

/-- C7: for every IndexedMaskedArray and every in-range scalar position `p`,
`Read(p)` is the canonical missing value iff `Index[p] = maskedwhen`, and
otherwise is `Content[Index[p]]`; in particular for maskedwhen=-1,
Index=[-1,3], Content=[1,2,3,4], Read(0) is missing and Read(1)=4. -/
theorem indexedMaskedArray_read_spec (a : IndexedMaskedArray) (p : Int)
    (hp0 : 0 ≤ p) (hp1 : p < a.index.length) :
    (a.index.getD p.toNat 0 = a.maskedwhen → a.getScalar p = .ok .missing) ∧
    (a.index.getD p.toNat 0 ≠ a.maskedwhen → 0 ≤ a.index.getD p.toNat 0 →
      a.index.getD p.toNat 0 < a.content.length →
      a.getScalar p = .ok (.val (a.content.getD (a.index.getD p.toNat 0).toNat 0))) ∧
    (IndexedMaskedArray.mk [-1, 3] [1, 2, 3, 4] (-1) true).getScalar 0 = .ok .missing ∧
    (IndexedMaskedArray.mk [-1, 3] [1, 2, 3, 4] (-1) true).getScalar 1 = .ok (.val 4) := by
  have hg : npGetE a.index p = .ok (a.index.getD p.toNat 0) :=
    npGetE_ok_getD a.index p 0 hp0 hp1
  refine ⟨?_, ?_, by rfl, by rfl⟩
  · intro hmask
    rw [IndexedMaskedArray.getScalar_eq a p _ hg, if_pos hmask]
  · intro hmask hi0 hi1
    rw [IndexedMaskedArray.getScalar_eq a p _ hg, if_neg hmask,
      npGetE_ok_getD a.content _ 0 hi0 hi1]

/-- Closed witness for `indexedMaskedArray_read_spec` at maskedwhen=-1,
Index=[-1,3], Content=[1,2,3,4], p=0. -/
theorem indexedMaskedArray_read_spec_witness :
    (IndexedMaskedArray.mk [-1, 3] [1, 2, 3, 4] (-1) true).getScalar 0 = .ok .missing :=
  (indexedMaskedArray_read_spec (IndexedMaskedArray.mk [-1, 3] [1, 2, 3, 4] (-1) true) 0
    (by decide) (by decide)).1 (by decide)

/- Frame lemma for fancy-index assignment: a successful
`l[tgts] = vals` leaves the length and every position not named by a
(normalised) target index unchanged. -/

theorem npSetFancy_frame {α : Type} :
    ∀ (tgts : List Int) (vals : List α) (l l2 : List α),
      npSetFancy l tgts vals = .ok l2 →
      l2.length = l.length ∧
      ∀ j : Nat, (∀ i ∈ tgts, npIdx l.length i ≠ (j : Int)) → l2[j]? = l[j]?
  | [], [], l, l2, h => by
    simp only [npSetFancy, Except.ok.injEq] at h
    subst h
    exact ⟨rfl, fun j _ => rfl⟩
  | [], v :: vs, l, l2, h => by
    simp [npSetFancy] at h
  | i :: is, [], l, l2, h => by
    simp [npSetFancy] at h
  | i :: is, v :: vs, l, l2, h => by
    simp only [npSetFancy] at h
    rcases hset : npSetE l i v with e | l1
    · rw [hset] at h; exact absurd h (by simp)
    · rw [hset] at h
      unfold npSetE at hset
      by_cases hc : 0 ≤ npIdx l.length i ∧ npIdx l.length i < l.length
      · rw [if_pos hc] at hset
        simp only [Except.ok.injEq] at hset
        have hl1 : l1 = l.set (npIdx l.length i).toNat v := hset.symm
        have hlen1 : l1.length = l.length := by rw [hl1]; simp
        obtain ⟨hlen2, hframe2⟩ := npSetFancy_frame is vs l1 l2 h
        refine ⟨by rw [hlen2, hlen1], ?_⟩
        intro j hj
        have hj2 : ∀ x ∈ is, npIdx l1.length x ≠ (j : Int) := by
          intro x hx
          rw [hlen1]
          exact hj x (by simp [hx])
        rw [hframe2 j hj2, hl1]
        apply List.getElem?_set_ne
        have hne : npIdx l.length i ≠ (j : Int) := hj i (by simp)
        omega
      · rw [if_neg hc] at hset
        exact absurd hset (by simp)

/-- Membership in a boolean-mask selection where the mask is computed
elementwise from the list itself. -/
theorem boolMask_map_mem {α : Type} (f : α → Bool) :
    ∀ (l : List α) (x : α), x ∈ boolMask l (l.map (fun y => f y)) → x ∈ l ∧ f x = true
  | [], x, h => by simp [boolMask] at h
  | a :: as, x, h => by
    simp only [List.map_cons, boolMask] at h
    rcases List.mem_append.mp h with h1 | h2
    · rcases hfa : f a with _ | _
      · simp [hfa] at h1
      · simp only [hfa, if_true] at h1
        simp at h1
        subst h1
        exact ⟨by simp, hfa⟩
    · obtain ⟨hmem, hfx⟩ := boolMask_map_mem f as x h2
      exact ⟨by simp [hmem], hfx⟩

/-- C2, counterexample to the claim as stated: a plain length-1 numpy array
carrying no missing markers is routed through the length-1 branch
(line 244), which assigns `self._content[self._index[head]] = what[0]`
with no mask check; with maskedwhen=2, Index=[2], Content=[10,20,30], the
single selected position is masked, yet the write stores 9 into content
slot 2 (addressed by the sentinel itself), so a content slot IS written
for an already-masked position.  (The index is untouched, so the position
still reads missing.) -/
theorem indexedMaskedArray_len1_write_hits_masked_slot :
    (IndexedMaskedArray.mk [2] [10, 20, 30] 2 true).getScalar 0 = .ok .missing ∧
    (IndexedMaskedArray.mk [2] [10, 20, 30] 2 true).setitem (.many [0]) (.plain [9])
      = .ok (IndexedMaskedArray.mk [2] [10, 20, 9] 2 true) ∧
    ([10, 20, 9] : List Int) ≠ [10, 20, 30] :=
  ⟨rfl, rfl, by decide⟩

/-- C2, amended: for every writeable IndexedMaskedArray, a successful write
of a plain markerless array of length ≠ 1 (the branch at lines 272-275)
leaves the index array unchanged, writes no content slot other than those
addressed through a selected position whose index differs from
`maskedwhen`, and every already-masked position still reads missing
afterwards.  (A length-1 plain array instead goes through the unwrap
branch at line 244, which writes content through every selected index
value, sentinel included — see the counterexample — though even then the
index stays `maskedwhen`, so masked positions still read missing.) -/
theorem indexedMaskedArray_plain_write_preserves_masked
    (a : IndexedMaskedArray) (head xs idxs : List Int) (a2 : IndexedMaskedArray)
    (hlen1 : xs.length ≠ 1)
    (hhead : emap (npGetE a.index) head = .ok idxs)
    (hres : a.setitem (.many head) (.plain xs) = .ok a2) :
    a2.index = a.index ∧
    a2.content.length = a.content.length ∧
    (∀ j : Nat, (∀ i ∈ idxs, i ≠ a.maskedwhen → npIdx a.content.length i ≠ (j : Int)) →
      a2.content[j]? = a.content[j]?) ∧
    (∀ p ip : Int, npGetE a.index p = .ok ip → ip = a.maskedwhen →
      a2.getScalar p = .ok .missing) := by
  unfold IndexedMaskedArray.setitem at hres
  rcases hw : a.writeable with _ | _
  · rw [hw] at hres; exact absurd hres (by simp)
  · rw [hw] at hres
    simp only [Bool.true_eq_false, if_false] at hres
    rw [if_neg hlen1] at hres
    simp only [hhead] at hres
    by_cases hxl : xs.length ≠ idxs.length
    · rw [if_pos hxl] at hres; exact absurd hres (by simp)
    · rw [if_neg hxl] at hres
      rcases hsf : npSetFancy a.content
          (boolMask idxs (idxs.map (fun i => decide (i ≠ a.maskedwhen))))
          (boolMask xs (idxs.map (fun i => decide (i ≠ a.maskedwhen)))) with e | c2
      · simp only [hsf] at hres
        exact absurd hres (by simp)
      · simp only [hsf, Except.ok.injEq] at hres
        have ha2 : a2 = { a with content := c2 } := by
          rw [hw]
          exact hres.symm
        obtain ⟨hlen, hframe⟩ := npSetFancy_frame _ _ _ _ hsf
        subst ha2
        refine ⟨rfl, hlen, ?_, ?_⟩
        · intro j hj
          apply hframe
          intro i hi
          obtain ⟨hmem, hdec⟩ := boolMask_map_mem (fun i => decide (i ≠ a.maskedwhen)) idxs i hi
          exact hj i hmem (of_decide_eq_true hdec)
        · intro p ip hp hmask
          rw [IndexedMaskedArray.getScalar_eq { a with content := c2 } p ip hp, if_pos hmask]

/-- Closed witness for `indexedMaskedArray_plain_write_preserves_masked`:
maskedwhen=-1, Index=[-1,3], Content=[1,2,3,4]; writing the plain array
[7,9] over positions [0,1] succeeds with content [1,2,3,9]; content slot 0
is untouched and position 0 still reads missing. -/
theorem indexedMaskedArray_plain_write_preserves_masked_witness :
    (IndexedMaskedArray.mk [-1, 3] [1, 2, 3, 9] (-1) true).content[0]?
      = (IndexedMaskedArray.mk [-1, 3] [1, 2, 3, 4] (-1) true).content[0]? ∧
    (IndexedMaskedArray.mk [-1, 3] [1, 2, 3, 9] (-1) true).getScalar 0 = .ok .missing := by
  have h := indexedMaskedArray_plain_write_preserves_masked
    (IndexedMaskedArray.mk [-1, 3] [1, 2, 3, 4] (-1) true) [0, 1] [7, 9] [-1, 3]
    (IndexedMaskedArray.mk [-1, 3] [1, 2, 3, 9] (-1) true)
    (by decide) (by rfl) (by rfl)
  exact ⟨h.2.2.1 0 (by decide), h.2.2.2 0 (-1) (by rfl) (by rfl)⟩

/- ===================== UnionArray ===================== -/

/-- Sorted insertion, the building block of the sort underlying
`numpy.unique`. -/
def insertSorted (x : Int) : List Int → List Int
  | [] => [x]
  | y :: ys => if x ≤ y then x :: y :: ys else y :: insertSorted x ys

/-- `numpy.unique`: the sorted list of distinct values. -/
def npUnique (l : List Int) : List Int :=
  (l.foldr insertSorted []).dedup

/-- Embedding of `UnionArray` (indexed.py lines 283-413): a tag array and an
index array over a tuple of content arrays, plus a writeable flag. -/
structure UnionArray where
  tags : List Int
  index : List Int
  contents : List (List Int)
  writeable : Bool
  deriving DecidableEq, Repr

/-- Selector argument of the UnionArray item accessors: a column-name
string, a scalar position, or a multi-position (fancy) index. -/
inductive UWhere where
  | str (key : String)
  | pos (i : Int)
  | many (ps : List Int)
  deriving DecidableEq, Repr

/-- Result of `UnionArray.__getitem__`: a scalar, a concrete homogeneous
array (single-tag collapse), or a new UnionArray. -/
inductive UValue where
  | scalar (x : Int)
  | arr (xs : List Int)
  | union (u : UnionArray)
  deriving DecidableEq, Repr

/-- `UnionArray.__getitem__` (lines 355-374).  `proj` stands for numpy's
column projection `x[where]` of one content array by a string key, whose
outcome depends on whether that content is a record array containing the
named column.  In the string branch the source builds
`UnionArray(self._tags, self._index, tuple(x[where] for x in self._contents),
writeable=writeable)`: the tuple argument is evaluated first, left to
right, and then the keyword value `writeable` is looked up — but no local
or global binding of that name exists, so a NameError is raised.  The
shape check precedes every positional access.  A scalar head always has
exactly one distinct tag, so it collapses to `contents[tag][index]`; a
multi-position head slices tags and index together and collapses to
`contents[v][index_slice]` exactly when the sliced tags have one distinct
value `v`. -/
def UnionArray.getitem (proj : List Int → String → Except PyErr (List Int))
    (a : UnionArray) (w : UWhere) : Except PyErr UValue :=
  match w with
  | .str key =>
    match emap (fun c => proj c key) a.contents with
    | .error e => .error e
    | .ok _ => .error (.nameError "writeable")
  | .pos i =>
    if a.tags.length ≠ a.index.length then
      .error (.valueError "tags shape does not match index shape")
    else
      match npGetE a.tags i with
      | .error e => .error e
      | .ok t =>
        match npGetE a.index i with
        | .error e => .error e
        | .ok ix =>
          match npGetE a.contents t with
          | .error e => .error e
          | .ok c =>
            match npGetE c ix with
            | .error e => .error e
            | .ok v => .ok (.scalar v)
  | .many ps =>
    if a.tags.length ≠ a.index.length then
      .error (.valueError "tags shape does not match index shape")
    else
      match emap (npGetE a.tags) ps with
      | .error e => .error e
      | .ok tagsS =>
        match emap (npGetE a.index) ps with
        | .error e => .error e
        | .ok idxS =>
          match npUnique tagsS with
          | [v] =>
            match npGetE a.contents v with
            | .error e => .error e
            | .ok c =>
              match emap (npGetE c) idxS with
              | .error e => .error e
              | .ok vals => .ok (.arr vals)
          | _ => .ok (.union { a with tags := tagsS, index := idxS })

/-- Value argument of `UnionArray.__setitem__`: a sequence/array, or a bare
scalar. -/
inductive UWhat where
  | seq (xs : List Int)
  | scalar (x : Int)
  deriving DecidableEq, Repr

/-- `index[selection]` / `what[selection]` for the distinct-tag partition of
a bulk union write: the elements of `other` at positions whose tag is `u`. -/
def selTag {α : Type} (tagsS : List Int) (other : List α) (u : Int) : List α :=
  (tagsS.zip other).filterMap (fun pr => if pr.1 = u then some pr.2 else none)

/-- The per-distinct-tag write loop of `UnionArray.__setitem__`: for each
`(tag, idxs, vals)`, perform `contents[tag][idxs] = vals`. -/
def unionScatter (contents : List (List Int)) :
    List (Int × List Int × List Int) → Except PyErr (List (List Int))
  | [] => .ok contents
  | (tag, idxs, vals) :: rest =>
    match npGetE contents tag with
    | .error e => .error e
    | .ok c =>
      match npSetFancy c idxs vals with
      | .error e => .error e
      | .ok c2 =>
        match npSetE contents tag c2 with
        | .error e => .error e
        | .ok contents2 => unionScatter contents2 rest

/-- `UnionArray.__setitem__` (lines 376-413).  The string branch evaluates
the content projections and then the unbound name `writeable`, exactly as
in `__getitem__`, and this happens before the read-only check.  For
positional writes: read-only check, then shape check, then slice tags and
index, partition by distinct tag, and route the value (broadcast scalar,
unwrapped length-1 element, or correspondingly-shaped slice) into each
content; a sequence whose length differs from the number of selected
positions is an error.  A scalar head produces a 0-d numpy scalar for
`index`, and boolean-indexing it (`index[selection]`) raises. -/
def UnionArray.setitem (proj : List Int → String → Except PyErr (List Int))
    (a : UnionArray) (w : UWhere) (what : UWhat) : Except PyErr UnionArray :=
  match w with
  | .str key =>
    match emap (fun c => proj c key) a.contents with
    | .error e => .error e
    | .ok _ => .error (.nameError "writeable")
  | .pos i =>
    if a.writeable = false then .error (.valueError "assignment destination is read-only")
    else if a.tags.length ≠ a.index.length then
      .error (.valueError "tags shape does not match index shape")
    else
      match npGetE a.tags i with
      | .error e => .error e
      | .ok _ =>
        match npGetE a.index i with
        | .error e => .error e
        | .ok _ => .error (.indexError "invalid index to scalar variable")
  | .many ps =>
    if a.writeable = false then .error (.valueError "assignment destination is read-only")
    else if a.tags.length ≠ a.index.length then
      .error (.valueError "tags shape does not match index shape")
    else
      match emap (npGetE a.tags) ps with
      | .error e => .error e
      | .ok tagsS =>
        match emap (npGetE a.index) ps with
        | .error e => .error e
        | .ok idxS =>
          let uniques := npUnique tagsS
          match what with
          | .seq xs =>
            if xs.length = 1 then
              match unionScatter a.contents (uniques.map (fun u =>
                  (u, selTag tagsS idxS u,
                   List.replicate (selTag tagsS idxS u).length (xs.headD 0)))) with
              | .error e => .error e
              | .ok c2 => .ok { a with contents := c2 }
            else
              if xs.length ≠ tagsS.length then
                .error (.valueError "cannot copy sequence to array axis with different dimension")
              else
                match unionScatter a.contents (uniques.map (fun u =>
                    (u, selTag tagsS idxS u, selTag tagsS xs u))) with
                | .error e => .error e
                | .ok c2 => .ok { a with contents := c2 }
          | .scalar x =>
            match unionScatter a.contents (uniques.map (fun u =>
                (u, selTag tagsS idxS u,
                 List.replicate (selTag tagsS idxS u).length x))) with
            | .error e => .error e
            | .ok c2 => .ok { a with contents := c2 }

/-- A column projection that succeeds on every content (the named column
exists everywhere); numpy would return the column, here the content itself
stands in for it. -/
def projOk : List Int → String → Except PyErr (List Int) :=
  fun c _ => .ok c

/-- The column projection of a plain numeric numpy array by a string key,
which raises an IndexError. -/
def projFail : List Int → String → Except PyErr (List Int) :=
  fun _ _ => .error (.indexError "only integers and slices are valid indices")

/-- C6: for every UnionArray with matching tag/index shapes, scalar Read(p)
is `Contents[Tag[p]][Index[p]]`; a multi-position selection slices tags and
index together and collapses to `Contents[v][index_slice]` when the sliced
tags have exactly one distinct value `v`, and otherwise yields a new
UnionArray over the sliced tags/index and the full content tuple; in
particular for Tag=[0,1,0], Index=[0,0,1], Contents=([5,6],[7]):
Read(0)=5, Read(1)=7, Read(2)=6. -/
theorem unionArray_read_spec
    (proj : List Int → String → Except PyErr (List Int))
    (a : UnionArray) (i : Int) (t ix v : Int) (c : List Int)
    (ps : List Int) (tagsS idxS vals : List Int) (u : Int) (cu : List Int)
    (t1 t2 : Int) (rest : List Int)
    (hsh : a.tags.length = a.index.length) :
    (npGetE a.tags i = .ok t → npGetE a.index i = .ok ix →
      npGetE a.contents t = .ok c → npGetE c ix = .ok v →
      a.getitem proj (.pos i) = .ok (.scalar v)) ∧
    (emap (npGetE a.tags) ps = .ok tagsS → emap (npGetE a.index) ps = .ok idxS →
      npUnique tagsS = [u] → npGetE a.contents u = .ok cu →
      emap (npGetE cu) idxS = .ok vals →
      a.getitem proj (.many ps) = .ok (.arr vals)) ∧
    (emap (npGetE a.tags) ps = .ok tagsS → emap (npGetE a.index) ps = .ok idxS →
      npUnique tagsS = t1 :: t2 :: rest →
      a.getitem proj (.many ps) = .ok (.union { a with tags := tagsS, index := idxS })) ∧
    (UnionArray.mk [0, 1, 0] [0, 0, 1] [[5, 6], [7]] true).getitem projOk (.pos 0)
      = .ok (.scalar 5) ∧
    (UnionArray.mk [0, 1, 0] [0, 0, 1] [[5, 6], [7]] true).getitem projOk (.pos 1)
      = .ok (.scalar 7) ∧
    (UnionArray.mk [0, 1, 0] [0, 0, 1] [[5, 6], [7]] true).getitem projOk (.pos 2)
      = .ok (.scalar 6) := by
  have hne : ¬ (a.tags.length ≠ a.index.length) := by omega
  refine ⟨?_, ?_, ?_, by rfl, by rfl, by rfl⟩
  · intro ht hix hc hv
    unfold UnionArray.getitem
    simp only [if_neg hne, ht, hix, hc, hv]
  · intro htagsS hidxS huniq hcu hvals
    unfold UnionArray.getitem
    simp only [if_neg hne, htagsS, hidxS, huniq, hcu, hvals]
  · intro htagsS hidxS huniq
    unfold UnionArray.getitem
    simp only [if_neg hne, htagsS, hidxS, huniq]

/-- Closed witness for `unionArray_read_spec` at Tag=[0,1,0], Index=[0,0,1],
Contents=([5,6],[7]): a multi-position selection [0,2] has the single
distinct tag 0 and collapses to the concrete array [5,6]. -/
theorem unionArray_read_spec_witness :
    (UnionArray.mk [0, 1, 0] [0, 0, 1] [[5, 6], [7]] true).getitem projOk (.many [0, 2])
      = .ok (.arr [5, 6]) :=
  (unionArray_read_spec projOk (UnionArray.mk [0, 1, 0] [0, 0, 1] [[5, 6], [7]] true)
    0 0 0 5 [5, 6] [0, 2] [0, 0] [0, 1] [5, 6] 0 [5, 6] 0 0 [] (by rfl)).2.1
    (by rfl) (by rfl) (by rfl) (by rfl) (by rfl)

/-- C4, counterexample to the claim as stated: on a UnionArray whose tag and
index shapes differ, a string-key read does NOT report the shape mismatch —
the string branch runs before the shape check and dies looking up the
unbound name `writeable` (when the column projections succeed), so the
raised error is a NameError, not the shape-mismatch ValueError. -/
theorem unionArray_string_access_not_shape_error :
    (UnionArray.mk [0] [0, 0] [[5]] true).getitem projOk (.str "x")
      = .error (.nameError "writeable") ∧
    (PyErr.nameError "writeable")
      ≠ .valueError "tags shape does not match index shape" :=
  ⟨rfl, by decide⟩

/-- C4, amended: for every UnionArray whose tag and index shapes differ,
every positional read and every positional write on a writeable view raises
the shape-mismatch error before any element is touched, and the shapes are
never coerced; a positional write on a non-writeable view raises the
read-only error first; a string-key access never reaches the shape check
and instead raises a NameError (unbound `writeable`) or the error of a
failing column projection. -/
theorem unionArray_shape_mismatch_access
    (proj : List Int → String → Except PyErr (List Int))
    (a : UnionArray) (i : Int) (ps : List Int) (what : UWhat)
    (hsh : a.tags.length ≠ a.index.length) :
    a.getitem proj (.pos i) = .error (.valueError "tags shape does not match index shape") ∧
    a.getitem proj (.many ps) = .error (.valueError "tags shape does not match index shape") ∧
    (a.writeable = true →
      a.setitem proj (.pos i) what
        = .error (.valueError "tags shape does not match index shape")) ∧
    (a.writeable = true →
      a.setitem proj (.many ps) what
        = .error (.valueError "tags shape does not match index shape")) ∧
    (a.writeable = false →
      a.setitem proj (.pos i) what
        = .error (.valueError "assignment destination is read-only")) ∧
    (a.writeable = false →
      a.setitem proj (.many ps) what
        = .error (.valueError "assignment destination is read-only")) := by
  refine ⟨?_, ?_, ?_, ?_, ?_, ?_⟩
  · simp only [UnionArray.getitem, if_pos hsh]
  · simp only [UnionArray.getitem, if_pos hsh]
  · intro hw
    simp only [UnionArray.setitem, hw, Bool.true_eq_false, if_false, if_pos hsh]
  · intro hw
    simp only [UnionArray.setitem, hw, Bool.true_eq_false, if_false, if_pos hsh]
  · intro hw
    simp [UnionArray.setitem, hw]
  · intro hw
    simp [UnionArray.setitem, hw]

/-- Closed witness for `unionArray_shape_mismatch_access` at tags=[0],
index=[0,0], contents=([5],): the positional read raises the
shape-mismatch error. -/
theorem unionArray_shape_mismatch_access_witness :
    (UnionArray.mk [0] [0, 0] [[5]] true).getitem projOk (.pos 0)
      = .error (.valueError "tags shape does not match index shape") :=
  (unionArray_shape_mismatch_access projOk (UnionArray.mk [0] [0, 0] [[5]] true)
    0 [0] (.scalar 9) (by decide)).1

/-- C10, counterexample to the claim as stated: when a content is a plain
numeric array, the column projection `x[where]` inside the tuple argument
raises before the unbound name `writeable` is ever evaluated, so a
string-key read whose named column does not exist raises that projection's
IndexError, not a NameError. -/
theorem unionArray_string_missing_column_not_nameerror :
    (UnionArray.mk [0] [0] [[5]] true).getitem projFail (.str "col")
      = .error (.indexError "only integers and slices are valid indices") ∧
    (PyErr.indexError "only integers and slices are valid indices")
      ≠ .nameError "writeable" :=
  ⟨rfl, by decide⟩

/-- C10, amended: whenever the per-content column projections succeed (the
named column exists in every content), a string-key read or write on any
UnionArray raises a NameError on the unbound name `writeable`, regardless
of the writeable flag (the string branch runs before the read-only check);
and a string-key write on any IndexedMaskedArray always raises an
UnboundLocalError (a NameError) on `head`, regardless of the writeable
flag and of the column, because `self._index[head]` is evaluated first.
In every such case the access fails before any state is modified. -/
theorem string_key_access_raises_nameerror
    (proj : List Int → String → Except PyErr (List Int))
    (a : UnionArray) (key : String) (cols : List (List Int)) (what : UWhat)
    (m : IndexedMaskedArray) (mkey : String) (mwhat : MWhat)
    (hproj : emap (fun c => proj c key) a.contents = .ok cols) :
    a.getitem proj (.str key) = .error (.nameError "writeable") ∧
    a.setitem proj (.str key) what = .error (.nameError "writeable") ∧
    m.setitem (.str mkey) mwhat = .error (.nameError "head") := by
  refine ⟨?_, ?_, by rfl⟩
  · unfold UnionArray.getitem
    simp only [hproj]
  · unfold UnionArray.setitem
    simp only [hproj]

/-- Closed witness for `string_key_access_raises_nameerror` on a
non-writeable UnionArray whose column projection succeeds, and a
non-writeable IndexedMaskedArray. -/
theorem string_key_access_raises_nameerror_witness :
    (UnionArray.mk [0] [0] [[5]] false).getitem projOk (.str "x")
      = .error (.nameError "writeable") ∧
    (IndexedMaskedArray.mk [0] [5] (-1) false).setitem (.str "x") (.plain [1])
      = .error (.nameError "head") := by
  have h := string_key_access_raises_nameerror projOk
    (UnionArray.mk [0] [0] [[5]] false) "x" [[5]] (.scalar 9)
    (IndexedMaskedArray.mk [0] [5] (-1) false) "x" (.plain [1]) (by rfl)
  exact ⟨h.1, h.2.2⟩

/- ===================== VirtualArray ===================== -/

/-- A materialised numpy-like array: its dtype code, its shape, and its
payload.  Only the dtype and shape take part in the validation performed
by `VirtualArray.materialize`. -/
structure Arr where
  dtype : Nat
  shape : List Nat
  data : List Int
  deriving DecidableEq, Repr

/-- The external cache collaborator of `VirtualArray`: a key-to-array
mapping whose lookup may fail in an arbitrary way (entries may be evicted
at any time without notice); the error payload is an arbitrary message. -/
def Cache : Type := String → Except String Arr

/-- `cache[k] = a`. -/
def cacheInsert (c : Cache) (k : String) (a : Arr) : Cache :=
  fun q => if q = k then .ok a else c q

/-- `del cache[k]`: a subsequent lookup of `k` fails. -/
def cacheDelete (c : Cache) (k : String) : Cache :=
  fun q => if q = k then .error "KeyError" else c q

/-- What `self._array` currently holds: nothing, a concrete array, or a
cache key. -/
inductive Held where
  | nothing
  | arr (a : Arr)
  | key (k : String)
  deriving DecidableEq, Repr

/-- Embedding of the state of a `VirtualArray` (virtual.py lines 38-205).
`gen` is the (pure) output of the zero-argument generator; `dtypeExp` and
`shapeExp` are the optional declared expectations; `key` is
`self.key` (the persistent key when supplied, otherwise the transient
identity key, fixed for the view's lifetime); `held` is `self._array`;
`cache` is `self._cache`. -/
structure VState where
  gen : Arr
  dtypeExp : Option Nat
  shapeExp : Option (List Nat)
  key : String
  held : Held
  cache : Option Cache

/-- The generator's output passes the validation in `materialize`:
declared dtype and shape match when present, and the result is not
dimensionless. -/
def VState.genOk (s : VState) : Prop :=
  (s.dtypeExp = none ∨ s.dtypeExp = some s.gen.dtype) ∧
  (s.shapeExp = none ∨ s.shapeExp = some s.gen.shape) ∧
  s.gen.shape ≠ []

instance (s : VState) : Decidable s.genOk := by
  unfold VState.genOk
  infer_instance

/-- `VirtualArray.materialize` (lines 169-187): invoke the generator
(exactly one call), validate dtype/shape/dimensionality, then either store
the array directly (no cache) or store it in the cache under `self.key`
and retain only the key. -/
def VState.materialize (s : VState) : Except PyErr (Arr × VState) :=
  let array := s.gen
  if s.dtypeExp ≠ none ∧ s.dtypeExp ≠ some array.dtype then
    .error (.valueError "materialized array has wrong dtype")
  else if s.shapeExp ≠ none ∧ s.shapeExp ≠ some array.shape then
    .error (.valueError "materialized array has wrong shape")
  else if array.shape = [] then
    .error (.valueError "materialized object is scalar")
  else
    match s.cache with
    | none => .ok (array, { s with held := .arr array })
    | some c =>
      .ok (array, { s with held := .key s.key, cache := some (cacheInsert c s.key array) })

/-- The `VirtualArray.array` property (lines 124-160), returning also the
number of generator invocations performed by this access.  States follow
the source's own numbering: (1)/(3) nothing held — materialize; (2) array
held, no cache — return it; (6) key held, no cache — materialize; (5) key
held, cache lookup succeeds — return the cached array; (4) key held, any
lookup failure — treat as evicted and materialize; (7) array held with a
cache — fill the cache and return it. -/
def VState.accessArray (s : VState) : Except PyErr (Nat × Arr × VState) :=
  match s.held with
  | .nothing =>
    match s.materialize with
    | .error e => .error e
    | .ok (arr2, s2) => .ok (1, arr2, s2)
  | .arr a =>
    match s.cache with
    | none => .ok (0, a, s)
    | some c => .ok (0, a, { s with cache := some (cacheInsert c s.key a) })
  | .key k =>
    match s.cache with
    | none =>
      match s.materialize with
      | .error e => .error e
      | .ok (arr2, s2) => .ok (1, arr2, s2)
    | some c =>
      match c k with
      | .ok a => .ok (0, a, s)
      | .error _ =>
        match s.materialize with
        | .error e => .error e
        | .ok (arr2, s2) => .ok (1, arr2, s2)

/-- The `VirtualArray.ismaterialized` property (lines 162-167): with no
cache, whether an array is held; with a cache, whether the held key is
present in the cache (`self._array in self._cache`; a held ndarray is
unhashable, so that membership test raises). -/
def VState.ismaterialized (s : VState) : Except PyErr Bool :=
  match s.cache with
  | none =>
    match s.held with
    | .arr _ => .ok true
    | _ => .ok false
  | some c =>
    match s.held with
    | .nothing => .ok false
    | .key k =>
      .ok (match c k with
        | .ok _ => true
        | .error _ => false)
    | .arr _ => .error (.typeError "unhashable type")

/-- Evaluation of `materialize` when the generator's output passes
validation and no cache is attached. -/
theorem VState.materialize_ok_nocache (s : VState) (hok : s.genOk) (hc : s.cache = none) :
    s.materialize = .ok (s.gen, { s with held := .arr s.gen }) := by
  obtain ⟨h1, h2, h3⟩ := hok
  unfold VState.materialize
  rw [if_neg (by tauto), if_neg (by tauto), if_neg h3, hc]

/-- Evaluation of `materialize` when the generator's output passes
validation and a cache is attached. -/
theorem VState.materialize_ok_cache (s : VState) (c : Cache) (hok : s.genOk)
    (hc : s.cache = some c) :
    s.materialize = .ok (s.gen,
      { s with held := .key s.key, cache := some (cacheInsert c s.key s.gen) }) := by
  obtain ⟨h1, h2, h3⟩ := hok
  unfold VState.materialize
  rw [if_neg (by tauto), if_neg (by tauto), if_neg h3, hc]

/-- C3: for every VirtualArray holding a key with a cache attached, when
the cache lookup of that key fails — with any error whatsoever, including
deliberate eviction — the access is exactly a re-materialization: the
generator is invoked once more and no error from the lookup surfaces to
the caller (the outcome does not depend on the lookup's error at all). -/
theorem virtualArray_lookup_failure_rematerializes
    (s : VState) (k : String) (c : Cache) (e : String)
    (hheld : s.held = .key k) (hc : s.cache = some c) (hlookup : c k = .error e) :
    (s.accessArray = (match s.materialize with
      | .error e2 => .error e2
      | .ok (arr2, s2) => .ok (1, arr2, s2))) ∧
    (s.genOk → s.accessArray = .ok (1, s.gen,
      { s with held := .key s.key, cache := some (cacheInsert c s.key s.gen) })) := by
  constructor
  · unfold VState.accessArray
    simp only [hheld, hc, hlookup]
  · intro hok
    unfold VState.accessArray
    simp only [hheld, hc, hlookup, VState.materialize_ok_cache s c hok hc]

/-- Closed witness for `virtualArray_lookup_failure_rematerializes`: a view
holding key "k" over a cache from which "k" was deleted re-materializes
and returns the generator's output. -/
theorem virtualArray_lookup_failure_rematerializes_witness :
    (VState.mk (Arr.mk 0 [2] [5, 7]) none none "k" (.key "k")
        (some (cacheDelete (fun _ => Except.error "KeyError") "k"))).accessArray
      = .ok (1, Arr.mk 0 [2] [5, 7],
        VState.mk (Arr.mk 0 [2] [5, 7]) none none "k" (.key "k")
          (some (cacheInsert (cacheDelete (fun _ => Except.error "KeyError") "k") "k"
            (Arr.mk 0 [2] [5, 7])))) :=
  (virtualArray_lookup_failure_rematerializes
    (VState.mk (Arr.mk 0 [2] [5, 7]) none none "k" (.key "k")
      (some (cacheDelete (fun _ => Except.error "KeyError") "k")))
    "k" (cacheDelete (fun _ => Except.error "KeyError") "k") "KeyError"
    rfl rfl rfl).2 (by decide)

/-- C8: generator-invocation counts of `array` accesses.  (1a)/(1b) the
first access of a fresh view (nothing held) invokes the generator exactly
once and leaves the view materialized, without and with a cache; (2) when
the held key's cache entry has been deleted out-of-band, the next access
invokes the generator exactly one further time; (3) an access while a
concrete array is held (no cache) invokes it zero times; (4) an access
while the held key's cache entry is present invokes it zero times. -/
theorem virtualArray_generator_call_counts
    (s1 s2 s3 s4 : VState) (c1 c2 c4 : Cache) (a3 a4 : Arr) (k4 : String) (e2 : String) :
    (s1.held = .nothing → s1.cache = none → s1.genOk →
      s1.accessArray = .ok (1, s1.gen, { s1 with held := .arr s1.gen }) ∧
      ({ s1 with held := .arr s1.gen } : VState).ismaterialized = .ok true) ∧
    (s1.held = .nothing → s1.cache = some c1 → s1.genOk →
      s1.accessArray = .ok (1, s1.gen,
        { s1 with held := .key s1.key, cache := some (cacheInsert c1 s1.key s1.gen) }) ∧
      ({ s1 with
         held := .key s1.key,
         cache := some (cacheInsert c1 s1.key s1.gen) } : VState).ismaterialized = .ok true) ∧
    (s2.held = .key s2.key → s2.cache = some c2 → c2 s2.key = .error e2 → s2.genOk →
      s2.accessArray = .ok (1, s2.gen,
        { s2 with held := .key s2.key, cache := some (cacheInsert c2 s2.key s2.gen) })) ∧
    (s3.held = .arr a3 → s3.cache = none → s3.accessArray = .ok (0, a3, s3)) ∧
    (s4.held = .key k4 → s4.cache = some c4 → c4 k4 = .ok a4 →
      s4.accessArray = .ok (0, a4, s4)) := by
  refine ⟨?_, ?_, ?_, ?_, ?_⟩
  · intro hheld hc hok
    constructor
    · unfold VState.accessArray
      simp only [hheld, VState.materialize_ok_nocache s1 hok hc]
    · unfold VState.ismaterialized
      simp only [hc]
  · intro hheld hc hok
    constructor
    · unfold VState.accessArray
      simp only [hheld, VState.materialize_ok_cache s1 c1 hok hc]
    · unfold VState.ismaterialized
      simp [cacheInsert]
  · intro hheld hc hlookup hok
    exact (virtualArray_lookup_failure_rematerializes s2 s2.key c2 e2 hheld hc hlookup).2 hok
  · intro hheld hc
    unfold VState.accessArray
    simp only [hheld, hc]
  · intro hheld hc hlookup
    unfold VState.accessArray
    simp only [hheld, hc, hlookup]

/-- Closed witness for `virtualArray_generator_call_counts`: the fresh
cached view materializes with one generator call and is then materialized;
an access while the array (no cache) or the cache entry is present makes
zero calls. -/
theorem virtualArray_generator_call_counts_witness :
    ((VState.mk (Arr.mk 0 [2] [5, 7]) none none "k" .nothing none).accessArray
      = .ok (1, Arr.mk 0 [2] [5, 7],
        VState.mk (Arr.mk 0 [2] [5, 7]) none none "k" (.arr (Arr.mk 0 [2] [5, 7])) none)) ∧
    ((VState.mk (Arr.mk 0 [2] [5, 7]) none none "k" (.arr (Arr.mk 0 [2] [5, 7])) none).accessArray
      = .ok (0, Arr.mk 0 [2] [5, 7],
        VState.mk (Arr.mk 0 [2] [5, 7]) none none "k" (.arr (Arr.mk 0 [2] [5, 7])) none)) ∧
    ((VState.mk (Arr.mk 0 [2] [5, 7]) none none "k" (.key "k")
        (some (cacheInsert (fun _ => Except.error "KeyError") "k" (Arr.mk 0 [2] [5, 7])))).accessArray
      = .ok (0, Arr.mk 0 [2] [5, 7],
        VState.mk (Arr.mk 0 [2] [5, 7]) none none "k" (.key "k")
          (some (cacheInsert (fun _ => Except.error "KeyError") "k" (Arr.mk 0 [2] [5, 7]))))) := by
  have h := virtualArray_generator_call_counts
    (VState.mk (Arr.mk 0 [2] [5, 7]) none none "k" .nothing none)
    (VState.mk (Arr.mk 0 [2] [5, 7]) none none "k" (.key "k")
      (some (cacheDelete (fun _ => Except.error "KeyError") "k")))
    (VState.mk (Arr.mk 0 [2] [5, 7]) none none "k" (.arr (Arr.mk 0 [2] [5, 7])) none)
    (VState.mk (Arr.mk 0 [2] [5, 7]) none none "k" (.key "k")
      (some (cacheInsert (fun _ => Except.error "KeyError") "k" (Arr.mk 0 [2] [5, 7]))))
    (fun _ => Except.error "KeyError")
    (cacheDelete (fun _ => Except.error "KeyError") "k")
    (cacheInsert (fun _ => Except.error "KeyError") "k" (Arr.mk 0 [2] [5, 7]))
    (Arr.mk 0 [2] [5, 7]) (Arr.mk 0 [2] [5, 7]) "k" "KeyError"
  exact ⟨(h.1 rfl rfl (by decide)).1, h.2.2.2.1 rfl rfl,
    h.2.2.2.2 rfl rfl rfl⟩

/- ===================== ByteIndexedArray ===================== -/

/-- Little-endian decode of a byte list as one unsigned fixed-width
scalar (the reinterpretation `numpy.frombuffer` performs). -/
def decodeLE : List Nat → Nat
  | [] => 0
  | b :: bs => b + 256 * decodeLE bs

/-- The `S` bytes of `content` starting at byte position `o`. -/
def readBytes (content : List Nat) (o S : Nat) : List Nat :=
  (List.range S).map (fun j => content.getD (o + j) 0)

/-- Byte-level scatter `dst[idxs] = vals` with natural indices, applied
left to right (the assignment `frombuffer(hold, CHARTYPE)[holdidx] = ...`). -/
def scatterList {α : Type} (dst : List α) : List Nat → List α → List α
  | i :: is, v :: vs => scatterList (dst.set i v) is vs
  | _, _ => dst

/-- Reinterpret a `K*S`-byte scratch buffer as `K` consecutive scalars of
itemsize `S`. -/
def decodeChunks (bytes : List Nat) (S K : Nat) : List Nat :=
  (List.range K).map (fun k => decodeLE ((bytes.drop (k * S)).take S))

/-- Embedding of `ByteIndexedArray` (indexed.py lines 103-194): the index
values are absolute byte offsets into a raw byte buffer, and the declared
dtype contributes its itemsize. -/
structure ByteIndexedArray where
  index : List Int
  content : List Nat
  itemsize : Nat
  writeable : Bool
  deriving DecidableEq, Repr

/-- `ByteIndexedArray.__getitem__` on a scalar `where` (lines 139-143):
`starts = self._index[where]`, then `pos, offset = divmod(starts, itemsize)`
and `numpy.frombuffer(self._content, dtype, count=pos+1, offset=offset)[pos]`,
which decodes the `S` bytes at positions `offset + pos*S .. offset + pos*S
+ S - 1` and requires the buffer to hold `offset + (pos+1)*S` bytes. -/
def ByteIndexedArray.getScalar (a : ByteIndexedArray) (p : Int) : Except PyErr Nat :=
  match npGetE a.index p with
  | .error e => .error e
  | .ok start =>
    let S : Int := a.itemsize
    let pos := start / S
    let off := start % S
    if 0 ≤ pos ∧ off + (pos + 1) * S ≤ (a.content.length : Int) then
      .ok (decodeLE (readBytes a.content (off + pos * S).toNat a.itemsize))
    else .error (.valueError "buffer is smaller than requested size")

/-- `ByteIndexedArray.__getitem__` on a multi-position `where`
(lines 145-163): gather `starts = self._index[where]`; an empty selection
returns an empty array with the buffer untouched; otherwise build the two
strided index arrays
`contidx[::S] = starts; contidx[off::S] = contidx[::S] + off` (elementwise
`contidx[m] = starts[m / S] + m % S`) and
`holdidx[::S] = arange(0, K*S, S); holdidx[off::S] = holdidx[::S] + off`
(elementwise `holdidx[m] = (m / S) * S + m % S`), gather the source bytes
`self._content[contidx]`, scatter them into a fresh `K*S` scratch buffer at
`holdidx`, and reinterpret the scratch buffer as `K` scalars. -/
def ByteIndexedArray.getMany (a : ByteIndexedArray) (ps : List Int) : Except PyErr (List Nat) :=
  match emap (npGetE a.index) ps with
  | .error e => .error e
  | .ok starts =>
    if starts.length = 0 then .ok []
    else
      let S := a.itemsize
      let contidx := (List.range (starts.length * S)).map
        (fun m => starts.getD (m / S) 0 + ((m % S : Nat) : Int))
      let holdidx := (List.range (starts.length * S)).map
        (fun m => (m / S) * S + m % S)
      match emap (npGetE a.content) contidx with
      | .error e => .error e
      | .ok srcBytes =>
        .ok (decodeChunks
          (scatterList (List.replicate (starts.length * S) 0) holdidx srcBytes)
          S starts.length)

/-- The strided construction of `holdidx` produces the identity layout
`0, 1, ..., n-1`. -/
theorem holdidx_eq_range (n S : Nat) :
    (List.range n).map (fun m => (m / S) * S + m % S) = List.range n := by
  have h : ∀ m ∈ List.range n, (fun m => (m / S) * S + m % S) m = id m := by
    intro m _
    show m / S * S + m % S = m
    rw [Nat.mul_comm]
    exact Nat.div_add_mod m S
  rw [List.map_congr_left h, List.map_id]

theorem scatterList_range' {α : Type} :
    ∀ (vals : List α) (k : Nat) (dst : List α),
      k + vals.length ≤ dst.length →
      scatterList dst (List.range' k vals.length) vals
        = dst.take k ++ vals ++ dst.drop (k + vals.length)
  | [], k, dst, h => by
    show dst = dst.take k ++ [] ++ dst.drop (k + 0)
    simp only [List.append_nil, Nat.add_zero]
    exact (List.take_append_drop k dst).symm
  | v :: vs, k, dst, h => by
    rw [List.length_cons, List.range'_succ]
    show scatterList (dst.set k v) (List.range' (k + 1) vs.length) vs = _
    have hk : k < dst.length := by
      simp only [List.length_cons] at h
      omega
    have hrec := scatterList_range' vs (k + 1) (dst.set k v)
      (by simp only [List.length_set]; simp only [List.length_cons] at h; omega)
    rw [hrec]
    have h1 : (dst.set k v).take (k + 1) = dst.take k ++ [v] := by
      rw [List.set_eq_take_cons_drop v hk, List.take_append_eq_append_take,
        List.take_take]
      have hmin : (k + 1) ⊓ k = k := by omega
      have hlt : (List.take k dst).length = k := by
        rw [List.length_take]
        omega
      rw [hmin, hlt]
      have : k + 1 - k = 1 := by omega
      rw [this]
      rfl
    have h2 : (dst.set k v).drop (k + 1 + vs.length) = dst.drop (k + 1 + vs.length) := by
      rw [List.drop_set, if_pos (by omega)]
    rw [h1, h2]
    have h3 : k + 1 + vs.length = k + (vs.length + 1) := by omega
    rw [h3]
    simp [List.append_assoc]

/-- Scattering `n` values at the identity index list fills the buffer with
exactly those values. -/
theorem scatterList_id {α : Type} (vals dst : List α) (n : Nat)
    (hv : vals.length = n) (hd : dst.length = n) :
    scatterList dst (List.range n) vals = vals := by
  rw [List.range_eq_range']
  have h := scatterList_range' vals 0 dst (by omega)
  rw [hv] at h
  rw [h, List.take_zero, Nat.zero_add, ← hv]
  rw [show vals.length = dst.length by omega, List.drop_length]
  simp

/-- Evaluation of the scalar byte-decode path: for a valid offset `o` with
`o + S` bytes available, `divmod` recombines to read exactly the `S` bytes
at `o`. -/
theorem ByteIndexedArray.getScalar_eq_decode (a : ByteIndexedArray) (p o : Int)
    (hS : 0 < a.itemsize)
    (hp : npGetE a.index p = .ok o)
    (ho : 0 ≤ o) (hlen : o.toNat + a.itemsize ≤ a.content.length) :
    a.getScalar p = .ok (decodeLE (readBytes a.content o.toNat a.itemsize)) := by
  have hSi : (0 : Int) < (a.itemsize : Int) := by exact_mod_cast hS
  have hco : o % (a.itemsize : Int) + o / (a.itemsize : Int) * (a.itemsize : Int) = o := by
    rw [Int.mul_comm]
    exact Int.emod_add_ediv o (a.itemsize : Int)
  have hpos : 0 ≤ o / (a.itemsize : Int) := Int.ediv_nonneg ho (le_of_lt hSi)
  have hbound : o % (a.itemsize : Int) + (o / (a.itemsize : Int) + 1) * (a.itemsize : Int)
      ≤ (a.content.length : Int) := by
    have h1 : o % (a.itemsize : Int) + (o / (a.itemsize : Int) + 1) * (a.itemsize : Int)
        = o + (a.itemsize : Int) := by
      rw [add_mul, one_mul, ← add_assoc, hco]
    rw [h1]
    omega
  unfold ByteIndexedArray.getScalar
  simp only [hp]
  rw [if_pos ⟨hpos, hbound⟩, hco]

/-- The gathered-and-scattered scratch buffer, reinterpreted chunkwise,
yields per offset exactly the `S` bytes at that offset. -/
theorem decodeChunks_gather (content : List Nat) (starts : List Int) (S : Nat)
    (hS : 0 < S) (h0 : ∀ o ∈ starts, 0 ≤ o) :
    decodeChunks
      (((List.range (starts.length * S)).map
          (fun m => starts.getD (m / S) 0 + ((m % S : Nat) : Int))).map
        (fun i => content.getD i.toNat 0))
      S starts.length
      = starts.map (fun o => decodeLE (readBytes content o.toNat S)) := by
  unfold decodeChunks
  apply List.ext_getElem
  · simp
  · intro k hk1 hk2
    rw [List.getElem_map, List.getElem_map, List.getElem_range]
    have hK : k < starts.length := by simpa using hk2
    congr 1
    apply List.ext_getElem?
    intro j
    rw [List.getElem?_take]
    by_cases hj : j < S
    · rw [if_pos hj, List.getElem?_drop, List.getElem?_map, List.getElem?_map]
      have hm : k * S + j < starts.length * S := by
        have h1 : (k + 1) * S ≤ starts.length * S := Nat.mul_le_mul_right S (by omega)
        rw [Nat.add_mul, Nat.one_mul] at h1
        omega
      rw [List.getElem?_range hm]
      have hdiv : (k * S + j) / S = k := by
        rw [Nat.mul_comm k S, Nat.mul_add_div hS, Nat.div_eq_of_lt hj, Nat.add_zero]
      have hmod : (k * S + j) % S = j := by
        rw [Nat.mul_comm k S, Nat.mul_add_mod, Nat.mod_eq_of_lt hj]
      simp only [Option.map_some', hdiv, hmod]
      simp only [readBytes, List.getElem?_map, List.getElem?_range hj, Option.map_some']
      have hsk : starts.getD k 0 = starts[k] := List.getD_eq_getElem starts 0 hK
      have hge : 0 ≤ starts[k] := h0 _ (List.getElem_mem hK)
      rw [hsk]
      congr 2
      omega
    · rw [if_neg hj]
      simp only [readBytes, List.getElem?_map]
      rw [List.getElem?_eq_none (by simpa using Nat.le_of_not_lt hj)]
      rfl

/-- C1: for every ByteIndexedArray with positive itemsize `S` (in
particular S in 1,2,4,8) and every selection of offsets, each offset `o`
in range (`0 ≤ o` and `o + S` within the buffer), the batched
gather/scatter read returns exactly the per-offset scalar-path values —
offsets may be unaligned, overlapping or non-contiguous — and an empty
selection returns an empty array with the buffer untouched (all reads are
pure). -/
theorem byteIndexedArray_batch_agrees_scalar
    (a : ByteIndexedArray) (ps starts : List Int)
    (hS : 0 < a.itemsize)
    (hstarts : emap (npGetE a.index) ps = .ok starts)
    (hrange : ∀ o ∈ starts, 0 ≤ o ∧ o.toNat + a.itemsize ≤ a.content.length) :
    a.getMany ps
      = .ok (starts.map (fun o => decodeLE (readBytes a.content o.toNat a.itemsize))) ∧
    (∀ k : Nat, k < starts.length →
      a.getScalar (ps.getD k 0)
        = .ok (decodeLE (readBytes a.content (starts.getD k 0).toNat a.itemsize))) ∧
    (ps = [] → a.getMany ps = .ok []) := by
  refine ⟨?_, ?_, ?_⟩
  · unfold ByteIndexedArray.getMany
    simp only [hstarts]
    by_cases h0 : starts.length = 0
    · rw [if_pos h0, List.length_eq_zero.mp h0]
      rfl
    · rw [if_neg h0]
      have hgather : emap (npGetE a.content)
          ((List.range (starts.length * a.itemsize)).map
            (fun m => starts.getD (m / a.itemsize) 0 + ((m % a.itemsize : Nat) : Int)))
          = .ok (((List.range (starts.length * a.itemsize)).map
            (fun m => starts.getD (m / a.itemsize) 0 + ((m % a.itemsize : Nat) : Int))).map
            (fun i => a.content.getD i.toNat 0)) := by
        apply emap_ok_of_forall
        intro i hi
        rcases List.mem_map.mp hi with ⟨m, hm, rfl⟩
        have hmn : m < starts.length * a.itemsize := List.mem_range.mp hm
        have hdiv : m / a.itemsize < starts.length := (Nat.div_lt_iff_lt_mul hS).mpr hmn
        have hmem : starts.getD (m / a.itemsize) 0 ∈ starts := by
          rw [List.getD_eq_getElem starts 0 hdiv]
          exact List.getElem_mem hdiv
        obtain ⟨hge, hle⟩ := hrange _ hmem
        have hmod : m % a.itemsize < a.itemsize := Nat.mod_lt m hS
        apply npGetE_ok_getD
        · omega
        · omega
      simp only [hgather]
      rw [holdidx_eq_range]
      rw [scatterList_id
        (((List.range (starts.length * a.itemsize)).map
            (fun m => starts.getD (m / a.itemsize) 0 + ((m % a.itemsize : Nat) : Int))).map
          (fun i => a.content.getD i.toNat 0))
        (List.replicate (starts.length * a.itemsize) 0)
        (starts.length * a.itemsize) (by simp) (by simp)]
      rw [decodeChunks_gather a.content starts a.itemsize hS (fun o ho => (hrange o ho).1)]
  · intro k hk
    have hky : starts[k]? = some (starts.getD k 0) := by
      rw [List.getD_eq_getElem starts 0 hk]
      exact List.getElem?_eq_getElem hk
    obtain ⟨x, hx, hfx⟩ := emap_get (npGetE a.index) ps starts hstarts k _ hky
    have hpd : ps.getD k 0 = x := by
      rw [List.getD_eq_getElem?_getD, hx]
      rfl
    have hmem : starts.getD k 0 ∈ starts := by
      rw [List.getD_eq_getElem starts 0 hk]
      exact List.getElem_mem hk
    obtain ⟨hge, hle⟩ := hrange _ hmem
    rw [hpd]
    exact ByteIndexedArray.getScalar_eq_decode a x _ hS hfx hge hle
  · intro hps
    subst hps
    rfl

/-- Closed witness for `byteIndexedArray_batch_agrees_scalar`: itemsize 2,
buffer [1,2,3,4,5], unaligned overlapping offsets [0,1,3]; the batched
read equals the three little-endian scalar decodes 513, 770, 1284, each
also produced by the scalar path, and the empty selection gives []. -/
theorem byteIndexedArray_batch_agrees_scalar_witness :
    (ByteIndexedArray.mk [0, 1, 3] [1, 2, 3, 4, 5] 2 true).getMany [0, 1, 2]
      = .ok [513, 770, 1284] ∧
    (ByteIndexedArray.mk [0, 1, 3] [1, 2, 3, 4, 5] 2 true).getScalar 1 = .ok 770 ∧
    (ByteIndexedArray.mk [0, 1, 3] [1, 2, 3, 4, 5] 2 true).getMany [] = .ok [] := by
  have h := byteIndexedArray_batch_agrees_scalar
    (ByteIndexedArray.mk [0, 1, 3] [1, 2, 3, 4, 5] 2 true) [0, 1, 2] [0, 1, 3]
    (by decide) (by rfl) (by decide)
  refine ⟨?_, ?_, ?_⟩
  · rw [h.1]
    rfl
  · have h2 := h.2.1 1 (by decide)
    rw [show ((([0, 1, 2] : List Int).getD 1 0) = (1 : Int)) from rfl] at h2
    rw [h2]
    rfl
  · have h3 := byteIndexedArray_batch_agrees_scalar
      (ByteIndexedArray.mk [0, 1, 3] [1, 2, 3, 4, 5] 2 true) [] []
      (by decide) (by rfl) (by decide)
    exact h3.2.2 rfl

end Awkward
